import Mathlib

/-!
Verification development for the xtcjsapp converter: a shallow embedding in
Lean 4 of the page-processing pipeline and the XTC/XTCH container codec of the
TypeScript/JavaScript sources, together with theorems settling the spec claims.

Conventions of the embedding:
* JS numbers that always hold integers are modelled as Nat or Int;
  Math.floor of an exact rational expression is Int.floor (or Nat/Int division
  when the operands are integers).
* Byte buffers (Uint8Array, ArrayBuffer, DataView) are lists of Nat, every
  element below 256; out-of-range DataView or typed-array construction, which
  throws a RangeError in JS, is modelled with Option/Except.
* Mutable pixel or byte arrays written inside loops are modelled by explicit
  state passing: a fold over the iteration sequence of the loop, updating a
  function from indices to values.
* The Float32 error buffers of the dithering kernels are embedded as exact
  rationals; the spec claims settled here concern integer truncation versus
  fractional accumulation, not float rounding.
-/

namespace Xtc

/-- ConversionOptions (src/src/lib/types.ts, the fields used by the pipeline
functions embedded below). Enumerated string options keep their string type;
numeric options that the UI can set to fractional values are rationals. -/
structure ConversionOptions where
  splitMode : String
  dithering : String
  contrast : ℕ
  horizontalMargin : ℚ
  verticalMargin : ℚ
  orientation : String
  is2bit : Bool
  manhwa : Bool
  manhwaOverlap : ℕ
  sidewaysOverviews : Bool
  includeOverviews : Bool
  padBlack : Bool
  gamma : ℚ
  imageMode : String
  invert : Bool
  sourceType : String
deriving Repr, DecidableEq

/-- A neutral options value; individual theorems override the fields they are
about. Values correspond to the defaults of the converter UI. -/
def baseOptions : ConversionOptions :=
  { splitMode := "nosplit", dithering := "none", contrast := 0,
    horizontalMargin := 0, verticalMargin := 0, orientation := "portrait",
    is2bit := false, manhwa := false, manhwaOverlap := 50,
    sidewaysOverviews := false, includeOverviews := false, padBlack := false,
    gamma := 1, imageMode := "letterbox", invert := false, sourceType := "cbz" }

/-! ### Geometry (src/src/lib/processing/geometry.ts) -/

/-- clampMarginPercent (geometry.ts lines 3-6). Rationals have no NaN or
infinity, so the Number.isFinite guard has no counterpart here. -/
def clampMarginPercent (value : ℚ) : ℚ := max 0 (min 20 value)

/-- CropRect (src/src/lib/types.ts lines 36-41). -/
structure CropRect where
  x : ℤ
  y : ℤ
  width : ℤ
  height : ℤ
deriving Repr, DecidableEq

/-- getAxisCropRect (geometry.ts lines 8-31). Math.floor over the exact value
of the JS expression; Math.floor((w-1)/2) floors toward minus infinity, which
on integer operands is Int.fdiv. -/
def getAxisCropRect (sourceWidth sourceHeight : ℤ) (options : ConversionOptions) : CropRect :=
  let verticalMarginRaw : ℚ := if options.manhwa then 0 else options.verticalMargin
  let horizontalMargin := clampMarginPercent options.horizontalMargin
  let verticalMargin := clampMarginPercent verticalMarginRaw
  let maxCropX := Int.fdiv (sourceWidth - 1) 2
  let maxCropY := Int.fdiv (sourceHeight - 1) 2
  let cropX := min ⌊(sourceWidth : ℚ) * horizontalMargin / 100⌋ maxCropX
  let cropY := min ⌊(sourceHeight : ℚ) * verticalMargin / 100⌋ maxCropY
  { x := cropX, y := cropY,
    width := max 1 (sourceWidth - cropX * 2),
    height := max 1 (sourceHeight - cropY * 2) }

/-! ### Landscape overlap segments (image.ts, part_009 lines 178-210, identical
copy at src/src/lib/processing/image.ts lines 109-144) -/

/-- One segment of a landscape split. -/
structure Segment where
  x : ℤ
  y : ℤ
  w : ℤ
  h : ℤ
deriving Repr, DecidableEq

/-- The shift recomputed at each trip of the loop in calculateOverlapSegments:
Math.floor(segmentHeight - (segmentHeight*numSegments - height)/(numSegments-1)).
For an integer segmentHeight and a positive integer divisor this floor equals
segmentHeight + fdiv (height - segmentHeight*numSegments) (numSegments - 1). -/
def overlapShift (segmentHeight height numSegments : ℤ) : ℤ :=
  segmentHeight + Int.fdiv (height - segmentHeight * numSegments) (numSegments - 1)

/-- The loop guard shift / segmentHeight > 0.95. For segmentHeight > 0 the
float comparison agrees with the exact rational one (the operands are ratios of
small integers, far from the rounding error of the 0.95 literal); JS division
by zero yields Infinity, which passes the guard exactly when shift > 0. -/
def overlapCond (shift segmentHeight : ℤ) : Bool :=
  if segmentHeight = 0 then decide (0 < shift)
  else decide (0 < segmentHeight ∧ 95 * segmentHeight < 100 * shift)

/-- The while loop of calculateOverlapSegments: starting from numSegments = 3,
increment while the guard holds and numSegments < 10. The loop body runs at
most 7 times, so fuel 8 is exact. -/
def overlapIter (segmentHeight height : ℤ) : ℕ → ℤ → ℤ
  | 0, n => n
  | fuel + 1, n =>
    if overlapCond (overlapShift segmentHeight height n) segmentHeight ∧ n < 10
    then overlapIter segmentHeight height fuel (n + 1)
    else n

/-- calculateOverlapSegments (part_009 lines 178-210). segmentHeight is
Math.floor(targetWidth / (targetHeight / width)), embedded as the exact floor
of targetWidth * width / targetHeight. -/
def calculateOverlapSegments (width height targetWidth targetHeight : ℤ) : List Segment :=
  let segmentHeight := Int.fdiv (targetWidth * width) targetHeight
  let numSegments := overlapIter segmentHeight height 8 3
  let shift := overlapShift segmentHeight height numSegments
  (List.range numSegments.toNat).map fun i =>
    { x := 0, y := shift * (i : ℤ), w := width,
      h := if (i : ℤ) = numSegments - 1 then height - shift * (numSegments - 1)
           else segmentHeight }

/-! ### Page-count prediction and actual fan-out (src/src/lib/converter.ts) -/

/-- calculateOutputPageCount (converter.ts lines 175-186). -/
def calculateOutputPageCount (width height : ℤ) (options : ConversionOptions) : ℕ :=
  if options.manhwa then 0 else
  (if options.sidewaysOverviews then 1 else 0) +
  (if options.includeOverviews then 1 else 0) +
  (if options.orientation = "portrait" then 1
   else if width < height ∧ options.splitMode ≠ "nosplit" then
     (if options.splitMode = "overlap" then 3 else 2)
   else 1)

/-- Number of pages pushed to results by processCanvasAsImage (converter.ts
lines 817-918) for a frame whose crop rectangle is cropW x cropH, on a device
of dimensions dims. Each branch of the source pushes the counted number of
processAndEncode results. The manhwa branch emits a content-dependent number
of slices; the claims settled against this definition all assume
manhwa = false, and the 0 returned on that branch is never relied upon. -/
def emittedPageCount (cropW cropH : ℤ) (options : ConversionOptions) (dims : ℤ × ℤ) : ℕ :=
  (if options.sidewaysOverviews then 1 else 0) +
  (if options.includeOverviews then 1 else 0) +
  (if options.sourceType = "image" ∧ ¬options.manhwa ∧ options.splitMode = "nosplit" then 1
   else if options.manhwa then 0
   else if options.orientation = "portrait" then 1
   else if cropW < cropH ∧ options.splitMode ≠ "nosplit" then
     (if options.splitMode = "overlap"
      then (calculateOverlapSegments cropW cropH dims.1 dims.2).length
      else 2)
   else 1)

/-! ### Threshold quantizer (part_010 dithering.ts lines 114-132; this is the
module the converter imports, the only one exporting applyDitheringToData) -/

/-- The per-pixel quantizer of applyThreshold (part_010 lines 114-131). -/
def applyThreshold (is2bit : Bool) (v : ℕ) : ℕ :=
  if is2bit then
    if v < 42 then 0 else if v < 127 then 85 else if v < 212 then 170 else 255
  else
    if v < 128 then 0 else 255

/-- A raster whose per-pixel gray value is the red channel; the dither and
pack stages of the pipeline read only channel 0 of the RGBA data and the
filter pass has already written R=G=B. -/
structure ImageData where
  width : ℕ
  height : ℕ
  pixel : ℕ → ℕ → ℕ

/-- applyThreshold applied to a whole raster (the loop over data with stride 4
writes applyThreshold of the red channel to R=G=B of every pixel). -/
def applyThresholdImage (is2bit : Bool) (img : ImageData) : ImageData :=
  { img with pixel := fun x y => applyThreshold is2bit (img.pixel x y) }

/-! ### Gamma gating (converter.ts processAndEncode, part_009
applyUnifiedFilters, manhwa-stitcher.ts append) -/

/-- The gamma value processAndEncode hands to the filter stage (converter.ts
lines 90, 98 and 107): options.is2bit ? options.gamma : 1.0 on every path. -/
def processAndEncodeGamma (options : ConversionOptions) : ℚ :=
  if options.is2bit then options.gamma else 1

/-- The gate inside applyUnifiedFilters (part_009 lines 45 and 75): the LUT
gammaLUT[i] = round((i/255)^gamma * 255) is built and applied to the computed
luminosity exactly when the gamma argument differs from 1.0. -/
def unifiedFiltersAppliesGamma (gamma : ℚ) : Bool := gamma != 1

/-- The gate in ManhwaStitcher.append (manhwa-stitcher.ts line 35):
applyGamma runs only when gamma differs from 1.0 and is2bit holds. -/
def stitcherAppliesGamma (options : ConversionOptions) : Bool :=
  options.gamma != 1 && options.is2bit

/-! ### TOC header bytes (part_007 xtc-format.ts lines 441-451) -/

/-- Two little-endian bytes of a 16-bit write (DataView.setUint16 stores the
value modulo 2^16). -/
def u16le (v : ℕ) : List ℕ := [v % 256, v / 256 % 256]

/-- Four little-endian bytes of a 32-bit write. -/
def u32le (v : ℕ) : List ℕ :=
  [v % 256, v / 256 % 256, v / 65536 % 256, v / 16777216 % 256]

/-- writeTocHeader (part_007 lines 441-451). The JS expression
createTime || Math.floor(Date.now() / 1000) falls back to the clock both when
createTime is undefined and when it is 0, because 0 is falsy; the clock is the
explicit parameter now. coverPage !== undefined ? coverPage : 0xFFFF keeps 0. -/
def writeTocHeader (chapterCount : ℕ) (coverPage createTime : Option ℕ) (now : ℕ) : List ℕ :=
  let timestamp := match createTime with
    | some c => if c = 0 then now else c
    | none => now
  let cover := match coverPage with
    | some c => c
    | none => 0xFFFF
  u32le timestamp ++ u16le cover ++ u16le chapterCount ++ List.replicate 8 0

/-! ### Floyd-Steinberg diffusion terms (part_010 dithering.ts lines 160-164;
xtc_converter.js ditherFloydSteinberg lines 98-102) -/

/-- The error term the CLI converter adds to a neighbour:
(err * weight) >> 4 (xtc_converter.js lines 98-102). In that implementation
every value in the Float32 buffer stays integral (the initial pixels are
integers and every increment is the result of a shift), so the JS shift on the
float equals the arithmetic shift on the integer, i.e. floor division by 16. -/
def fsTermJs (err weight : ℤ) : ℤ := Int.fdiv (err * weight) 16

/-- The error term the web pipeline adds to a neighbour:
(err * weight) / 16 kept fractional (part_010 lines 160-164). -/
def fsTermWeb (err weight : ℚ) : ℚ := err * weight / 16

/-- Row-major iteration order of imageDataToXtg: y outer, x inner. -/
def rowPixelPairs (w h : ℕ) : List (ℕ × ℕ) :=
  (List.range h).flatMap fun y => (List.range w).map fun x => (x, y)

/-- Column iteration order of imageDataToXth: x outer, y inner. -/
def colPixelPairs (w h : ℕ) : List (ℕ × ℕ) :=
  (List.range w).flatMap fun x => (List.range h).map fun y => (x, y)

/-- The quantizer shared by both Floyd-Steinberg implementations, over the
integers of the CLI buffer. -/
def fsQuantJs (is2bit : Bool) (v : ℤ) : ℤ :=
  if is2bit then
    if v < 42 then 0 else if v < 127 then 85 else if v < 212 then 170 else 255
  else
    if v < 128 then 0 else 255

/-- The same quantizer over the exact rationals of the web buffer. -/
def fsQuantWeb (is2bit : Bool) (v : ℚ) : ℚ :=
  if is2bit then
    if v < 42 then 0 else if v < 127 then 85 else if v < 212 then 170 else 255
  else
    if v < 128 then 0 else 255

/-- One pixel of ditherFloydSteinberg in xtc_converter.js (lines 76-111):
quantize in place and add (err * weight) >> 4 to each unvisited neighbour.
Every buffer value in that implementation stays integral, so the float shift
equals the arithmetic shift on the integer, Int.fdiv by 16. -/
def fsStepJs (w h : ℕ) (is2bit : Bool) (st : ℕ → ℤ) (xy : ℕ × ℕ) : ℕ → ℤ :=
  let x := xy.1
  let y := xy.2
  let idx := y * w + x
  let oldVal := st idx
  let newVal := fsQuantJs is2bit oldVal
  let st0 := Function.update st idx newVal
  let err := oldVal - newVal
  let st1 := if x + 1 < w then
    Function.update st0 (idx + 1) (st0 (idx + 1) + Int.fdiv (err * 7) 16) else st0
  if y + 1 < h then
    let st2 := if 0 < x then
      Function.update st1 (idx + w - 1) (st1 (idx + w - 1) + Int.fdiv (err * 3) 16) else st1
    let st3 := Function.update st2 (idx + w) (st2 (idx + w) + Int.fdiv (err * 5) 16)
    if x + 1 < w then
      Function.update st3 (idx + w + 1) (st3 (idx + w + 1) + Int.fdiv (err * 1) 16) else st3
  else st1

/-- ditherFloydSteinberg of xtc_converter.js on a w x h gray buffer: the
row-major pixel loop followed by the clamped write-back. -/
def ditherFloydSteinbergJs (pixels : List ℤ) (w h : ℕ) (is2bit : Bool) : List ℤ :=
  let final := (rowPixelPairs w h).foldl (fsStepJs w h is2bit) (fun i => pixels.getD i 0)
  (List.range (w * h)).map fun i => max 0 (min 255 (final i))

/-- One pixel of applyFloydSteinberg in part_010 (lines 137-167): identical
kernel, but each diffusion term is the exact fraction (err * weight) / 16
accumulated in the floating buffer, embedded as rationals. -/
def fsStepWeb (w h : ℕ) (is2bit : Bool) (st : ℕ → ℚ) (xy : ℕ × ℕ) : ℕ → ℚ :=
  let x := xy.1
  let y := xy.2
  let idx := y * w + x
  let oldVal := st idx
  let newVal := fsQuantWeb is2bit oldVal
  let st0 := Function.update st idx newVal
  let err := oldVal - newVal
  let st1 := if x + 1 < w then
    Function.update st0 (idx + 1) (st0 (idx + 1) + err * 7 / 16) else st0
  if y + 1 < h then
    let st2 := if 0 < x then
      Function.update st1 (idx + w - 1) (st1 (idx + w - 1) + err * 3 / 16) else st1
    let st3 := Function.update st2 (idx + w) (st2 (idx + w) + err * 5 / 16)
    if x + 1 < w then
      Function.update st3 (idx + w + 1) (st3 (idx + w + 1) + err * 1 / 16) else st3
  else st1

/-- applyFloydSteinberg of part_010 on a w x h gray buffer, with the
conditional clamp of the write-back at lines 169-172
(val < 0 ? 0 : val > 255 ? 255 : val). -/
def ditherFloydSteinbergWeb (pixels : List ℚ) (w h : ℕ) (is2bit : Bool) : List ℚ :=
  let final := (rowPixelPairs w h).foldl (fsStepWeb w h is2bit) (fun i => pixels.getD i 0)
  (List.range (w * h)).map fun i =>
    if final i < 0 then 0 else if 255 < final i then 255 else final i

/-! ### PageMappingContext (converter.ts lines 137-154) -/

/-- One recorded mapping: originalPage maps to the emitted pages
[xtcStartPage, xtcStartPage + xtcPageCount). -/
structure PageMapping where
  originalPage : ℕ
  xtcStartPage : ℕ
  xtcPageCount : ℕ
deriving Repr, DecidableEq

/-- The mutable state of PageMappingContext: the mappings array and the
currentXtcPage counter (initially 1). -/
structure PageMappingContext where
  mappings : List PageMapping
  currentXtcPage : ℕ
deriving Repr, DecidableEq

/-- A freshly constructed PageMappingContext. -/
def PageMappingContext.init : PageMappingContext := ⟨[], 1⟩

/-- addOriginalPage (converter.ts lines 141-144): push a mapping starting at
currentXtcPage and advance the counter by xtcPageCount. -/
def PageMappingContext.addOriginalPage (ctx : PageMappingContext)
    (originalPage xtcPageCount : ℕ) : PageMappingContext :=
  ⟨ctx.mappings ++ [⟨originalPage, ctx.currentXtcPage, xtcPageCount⟩],
   ctx.currentXtcPage + xtcPageCount⟩

/-- getXtcPage (converter.ts lines 146-149): find-based lookup with fallback
to the original page number. -/
def PageMappingContext.getXtcPage (ctx : PageMappingContext) (originalPage : ℕ) : ℕ :=
  match ctx.mappings.find? (fun m => m.originalPage == originalPage) with
  | some m => m.xtcStartPage
  | none => originalPage

/-- getTotalXtcPages (converter.ts lines 151-153). -/
def PageMappingContext.getTotalXtcPages (ctx : PageMappingContext) : ℕ :=
  ctx.currentXtcPage - 1

/-- A sequence of addOriginalPage calls replayed on a fresh context. -/
def runMapping (calls : List (ℕ × ℕ)) : PageMappingContext :=
  calls.foldl (fun ctx pc => ctx.addOriginalPage pc.1 pc.2) PageMappingContext.init

/-- The call sequence of the conversion loops (converter.ts lines 268, 338,
361 and parallels): frame i (0-based) contributes
addOriginalPage(i + 1, count_i). -/
def pageCalls (start : ℕ) : List ℕ → List (ℕ × ℕ)
  | [] => []
  | c :: rest => (start, c) :: pageCalls (start + 1) rest

/-- The context after a conversion whose frames fan out to the given counts. -/
def mkMappingCtx (counts : List ℕ) : PageMappingContext :=
  runMapping (pageCalls 1 counts)

/-- A TOC entry (metadata/types.ts). -/
structure TocEntry where
  title : String
  startPage : ℕ
  endPage : ℕ
deriving Repr, DecidableEq

/-- Default entry used for out-of-range list reads in statements. -/
def defTocEntry : TocEntry := ⟨"", 0, 0⟩

/-- The TOC remapping step (converter.ts lines 375-382): map over the TOC,
replacing startPage by getXtcPage(startPage); a non-final entry's endPage
becomes getXtcPage of the next entry's original startPage minus 1, the final
entry's endPage becomes getTotalXtcPages(). -/
def remapToc (ctx : PageMappingContext) (toc : List TocEntry) : List TocEntry :=
  toc.mapIdx fun index entry =>
    { title := entry.title,
      startPage := ctx.getXtcPage entry.startPage,
      endPage := if index < toc.length - 1
                 then ctx.getXtcPage ((toc.getD (index + 1) defTocEntry).startPage) - 1
                 else ctx.getTotalXtcPages }

/-- Closed form of the mappings list produced by replaying calls from a given
currentXtcPage (proof helper for the fold in runMapping). -/
def mappingsFrom (start : ℕ) : List (ℕ × ℕ) → List PageMapping
  | [] => []
  | (o, c) :: rest => ⟨o, start, c⟩ :: mappingsFrom (start + c) rest

/-! ### Container reader (src/src/lib/xtc-reader.ts) -/

/-- Bounds-checked byte read; DataView and typed-array constructions in the
reader throw a RangeError when they reach past the buffer. -/
def getUint8? (buf : List ℕ) (i : ℕ) : Option ℕ := buf.get? i

/-- DataView.getUint16(i, true). -/
def getUint16le? (buf : List ℕ) (i : ℕ) : Option ℕ :=
  match buf.get? i, buf.get? (i + 1) with
  | some a, some b => some (a + 256 * b)
  | _, _ => none

/-- DataView.getUint32(i, true). -/
def getUint32le? (buf : List ℕ) (i : ℕ) : Option ℕ :=
  match getUint16le? buf i, getUint16le? buf (i + 2) with
  | some a, some b => some (a + 65536 * b)
  | _, _ => none

/-- getBigUint64 (xtc-reader.ts lines 251-255): two little-endian u32 reads. -/
def getUint64le? (buf : List ℕ) (i : ℕ) : Option ℕ :=
  match getUint32le? buf i, getUint32le? buf (i + 4) with
  | some lo, some hi => some (lo + 4294967296 * hi)
  | _, _ => none

/-- Failure modes of the reader: the explicit throw on a bad magic, and the
RangeError a JS DataView or typed-array view raises on an out-of-range read. -/
inductive XtcReadError where
  | badMagic
  | rangeError
deriving Repr, DecidableEq

/-- Parsed header (xtc-reader.ts lines 6-16), offsets as plain naturals. -/
structure XtcHeader where
  is2bit : Bool
  version : ℕ
  pageCount : ℕ
  hasMetadata : Bool
  metadataOffset : ℕ
  indexOffset : ℕ
  dataOffset : ℕ
  tocOffset : ℕ
deriving Repr, DecidableEq

/-- parseXtcHeader (xtc-reader.ts lines 35-58). The magic check looks only at
the first three bytes (must be the characters X, T, C); byte 3 selects 2-bit
mode when it is 0x48 or 0x68; the toc offset is read only when metadata is
flagged and the buffer holds at least 56 bytes. -/
def parseXtcHeader (buf : List ℕ) : Except XtcReadError XtcHeader :=
  match buf.get? 0, buf.get? 1, buf.get? 2, buf.get? 3 with
  | some b0, some b1, some b2, some b3 =>
    if b0 = 0x58 ∧ b1 = 0x54 ∧ b2 = 0x43 then
      match getUint32le? buf 8, getUint16le? buf 4, getUint16le? buf 6,
            getUint64le? buf 16, getUint64le? buf 24, getUint64le? buf 32 with
      | some flagsLow, some version, some pageCount,
        some metadataOffset, some indexOffset, some dataOffset =>
        let hasMetadata := flagsLow ≠ 0
        let tocOffset :=
          if hasMetadata ∧ 56 ≤ buf.length then (getUint64le? buf 48).getD 0 else 0
        Except.ok ⟨decide (b3 = 0x48 ∨ b3 = 0x68), version, pageCount,
                   decide hasMetadata, metadataOffset, indexOffset, dataOffset, tocOffset⟩
      | _, _, _, _, _, _ => Except.error XtcReadError.rangeError
    else Except.error XtcReadError.badMagic
  | _, _, _, _ => Except.error XtcReadError.rangeError

/-- readNullTerminatedString (xtc-reader.ts lines 63-70): a fixed-size cell is
viewed (RangeError when it reaches past the buffer) and read up to the first
NUL; the raw bytes stand for the decoded string. -/
def readCString? (buf : List ℕ) (off maxLength : ℕ) : Option (List ℕ) :=
  if off + maxLength ≤ buf.length then
    some (((buf.drop off).take maxLength).takeWhile (fun b => b ≠ 0))
  else none

/-- Book metadata as the reader returns it; text fields keep their raw bytes. -/
structure XtcMetadata where
  title : List ℕ
  author : List ℕ
  publisher : List ℕ
  language : List ℕ
  createTime : ℕ
  coverPage : ℕ
  toc : List (List ℕ × ℕ × ℕ)
deriving Repr, DecidableEq

/-- The TOC entry loop of parseMetadata (xtc-reader.ts lines 92-98): entry i
lives at tocOffset + i * 96 with an 80-byte title cell and two u16 pages. -/
def parseTocEntries (buf : List ℕ) (off : ℕ) : ℕ → Except XtcReadError (List (List ℕ × ℕ × ℕ))
  | 0 => Except.ok []
  | n + 1 =>
    match readCString? buf off 80, getUint16le? buf (off + 80), getUint16le? buf (off + 82) with
    | some title, some startPage, some endPage =>
      match parseTocEntries buf (off + 96) n with
      | Except.ok rest => Except.ok ((title, startPage, endPage) :: rest)
      | Except.error e => Except.error e
    | _, _, _ => Except.error XtcReadError.rangeError

/-- parseMetadata (xtc-reader.ts lines 75-101). Without the metadata flag (or
with a zero metadataOffset) it returns the empty metadata without reading. -/
def parseMetadata (buf : List ℕ) (hdr : XtcHeader) : Except XtcReadError XtcMetadata :=
  if hdr.hasMetadata = false ∨ hdr.metadataOffset = 0 then
    Except.ok ⟨[], [], [], [], 0, 0, []⟩
  else
    let mo := hdr.metadataOffset
    match readCString? buf mo 128, readCString? buf (mo + 128) 64,
          readCString? buf (mo + 192) 32, readCString? buf (mo + 224) 16,
          getUint32le? buf (mo + 240), getUint16le? buf (mo + 244),
          getUint16le? buf (mo + 246) with
    | some title, some author, some publisher, some language,
      some createTime, some coverPage, some chapterCount =>
      let tocOff := if hdr.tocOffset ≠ 0 then hdr.tocOffset else mo + 240 + 16
      match parseTocEntries buf tocOff chapterCount with
      | Except.ok toc => Except.ok ⟨title, author, publisher, language, createTime, coverPage, toc⟩
      | Except.error e => Except.error e
    | _, _, _, _, _, _, _ => Except.error XtcReadError.rangeError

/-- One index entry (xtc-reader.ts lines 18-23). -/
structure XtcIndexEntry where
  offset : ℕ
  size : ℕ
  width : ℕ
  height : ℕ
deriving Repr, DecidableEq

/-- The index loop of parseXtcFile (lines 126-129) with parseIndexEntry
(lines 106-113): entry i at indexOffset + i * 16. -/
def parseIndexEntries (buf : List ℕ) (off : ℕ) : ℕ → Except XtcReadError (List XtcIndexEntry)
  | 0 => Except.ok []
  | n + 1 =>
    match getUint64le? buf off, getUint32le? buf (off + 8),
          getUint16le? buf (off + 12), getUint16le? buf (off + 14) with
    | some o, some size, some width, some height =>
      match parseIndexEntries buf (off + 16) n with
      | Except.ok rest => Except.ok (⟨o, size, width, height⟩ :: rest)
      | Except.error e => Except.error e
    | _, _, _, _ => Except.error XtcReadError.rangeError

/-- ArrayBuffer.slice(start, stop): clamps both bounds to the buffer, never
throws (xtc-reader.ts line 134). -/
def jsSlice (buf : List ℕ) (start stop : ℕ) : List ℕ := (buf.take stop).drop start

/-- The result of parseXtcFile (xtc-reader.ts lines 25-30). -/
structure ParsedXtc where
  header : XtcHeader
  metadata : XtcMetadata
  entries : List XtcIndexEntry
  pageData : List (List ℕ)
deriving Repr, DecidableEq

/-- parseXtcFile (xtc-reader.ts lines 118-139): header, metadata, index
entries, then a clamped slice [offset, offset + size) per entry. -/
def parseXtcFile (buf : List ℕ) : Except XtcReadError ParsedXtc :=
  match parseXtcHeader buf with
  | Except.error e => Except.error e
  | Except.ok header =>
    match parseMetadata buf header with
    | Except.error e => Except.error e
    | Except.ok metadata =>
      match parseIndexEntries buf header.indexOffset header.pageCount with
      | Except.error e => Except.error e
      | Except.ok entries =>
        Except.ok ⟨header, metadata, entries,
                   entries.map fun e => jsSlice buf e.offset (e.offset + e.size)⟩

/-- A 64-byte container: valid magic and header, no metadata, pageCount 1,
indexOffset 48, dataOffset 64, and a single index entry whose range
[1000, 1010) lies entirely outside the 64-byte file. -/
def oobEntryBuffer : List ℕ :=
  [0x58, 0x54, 0x43, 0x00, 1, 0, 1, 0, 0, 0, 0, 0, 0, 0, 0, 0] ++
  [48, 0, 0, 0, 0, 0, 0, 0, 48, 0, 0, 0, 0, 0, 0, 0] ++
  [64, 0, 0, 0, 0, 0, 0, 0, 0, 0, 0, 0, 0, 0, 0, 0] ++
  [232, 3, 0, 0, 0, 0, 0, 0, 10, 0, 0, 0, 224, 1, 32, 3]

/-! ### XTG / XTH packers (part_007 xtc-format.ts lines 486-530 and 545-597)
and the page decoder (xtc-reader.ts decodeXtcPageToCanvas lines 153-230) -/

/-- Row stride of the 1-bit format: Math.ceil(w / 8). -/
def rowBytesOf (w : ℕ) : ℕ := (w + 7) / 8

/-- Column stride of the 2-bit format: Math.ceil(h / 8). -/
def colBytesOf (h : ℕ) : ℕ := (h + 7) / 8

/-- One loop iteration writing into a byte array: arr[i] |= m, with the array
as a function from indices to values. -/
def orInto (st : ℕ → ℕ) (i m : ℕ) : ℕ → ℕ := Function.update st i (st i ||| m)

/-- Bitwise or of a list of masks. -/
def orAll (l : List ℕ) : ℕ := l.foldr (fun a b => a ||| b) 0

/-- The pixel loop of imageDataToXtg (part_007 lines 494-504) as a fold: for
each pixel with red channel at least 128, set bit 7 - x % 8 of byte
y * rowBytes + floor(x / 8). -/
def xtgBytes (img : ImageData) : ℕ → ℕ :=
  (rowPixelPairs img.width img.height).foldl
    (fun st xy =>
      if 128 ≤ img.pixel xy.1 xy.2 then
        orInto st (xy.2 * rowBytesOf img.width + xy.1 / 8) (1 <<< (7 - xy.1 % 8))
      else st)
    (fun _ => 0)

/-- The packed 1-bit pixel data as a byte list of length rowBytes * h. -/
def xtgPixelList (img : ImageData) : List ℕ :=
  (List.range (rowBytesOf img.width * img.height)).map (xtgBytes img)

/-- The simplified digest of imageDataToXtg (lines 507-510): the first
min(8, length) payload bytes, zero-padded to 8. -/
def xtgDigest (pd : List ℕ) : List ℕ :=
  (List.range 8).map fun i => pd.getD i 0

/-- imageDataToXtg (part_007 lines 486-530): 22-byte chunk header (magic
XTG\0, u16 width, u16 height, colorMode 0, compression 0, u32 payload length,
8 digest bytes) followed by the packed rows. -/
def imageDataToXtg (img : ImageData) : List ℕ :=
  [0x58, 0x54, 0x47, 0x00] ++ u16le img.width ++ u16le img.height ++ [0, 0] ++
  u32le (xtgPixelList img).length ++ xtgDigest (xtgPixelList img) ++ xtgPixelList img

/-- The 2-bit quantization bands of imageDataToXth (lines 562-566). -/
def xthVal (gray : ℕ) : ℕ :=
  if 212 ≤ gray then 0 else if 127 ≤ gray then 1 else if 42 ≤ gray then 2 else 3

/-- The plane loop of imageDataToXth (part_007 lines 555-574) as a fold:
plane 0 receives bit 0 of the band value, plane 1 bit 1; columns are written
right to left with stride colBytes and vertical bit position 7 - y % 8. -/
def xthPlaneBytes (img : ImageData) (plane : ℕ) : ℕ → ℕ :=
  (colPixelPairs img.width img.height).foldl
    (fun st xy =>
      if (xthVal (img.pixel xy.1 xy.2)).testBit plane then
        orInto st ((img.width - 1 - xy.1) * colBytesOf img.height + xy.2 / 8)
          (1 <<< (7 - xy.2 % 8))
      else st)
    (fun _ => 0)

/-- One packed plane as a byte list of length colBytes * w. -/
def xthPlaneList (img : ImageData) (plane : ℕ) : List ℕ :=
  (List.range (colBytesOf img.height * img.width)).map (xthPlaneBytes img plane)

/-- The digest of imageDataToXth (line 591): p0[i] xor p1[i] for i < 8, with
reads past a short plane coerced to 0 as in JS. -/
def xthDigest (p0 p1 : List ℕ) : List ℕ :=
  (List.range 8).map fun i => p0.getD i 0 ^^^ p1.getD i 0

/-- imageDataToXth (part_007 lines 545-597): 22-byte chunk header (magic
XTH\0, u16 width, u16 height, two zero bytes, u32 payload length, 8 digest
bytes) followed by plane 0 then plane 1. -/
def imageDataToXth (img : ImageData) : List ℕ :=
  let p0 := xthPlaneList img 0
  let p1 := xthPlaneList img 1
  [0x58, 0x54, 0x48, 0x00] ++ u16le img.width ++ u16le img.height ++ [0, 0] ++
  u32le (p0.length + p1.length) ++ xthDigest p0 p1 ++ p0 ++ p1

/-- Failure modes of decodeXtcPageToCanvas: the explicit bad-magic throw, and
the RangeError of an out-of-range DataView read or typed-array view. -/
inductive DecodeError where
  | badMagic
  | rangeError
deriving Repr, DecidableEq

/-- A decoded page: dimensions and the gray value written to R=G=B at each
in-range coordinate. -/
structure DecodedPage where
  width : ℕ
  height : ℕ
  pixel : ℕ → ℕ → ℕ

/-- decodeXtcPageToCanvas (xtc-reader.ts lines 153-230). The magic characters
are read with undefined-to-0 coercion; width/height come from the chunk
header; 1-bit pages are read row-major MSB-first (bit set means white), 2-bit
pages read two planes column-major right-to-left and map the band value 0/1/
2/3 to gray 255/170/85/0. Typed-array reads beyond a plane yield 0. -/
def decodeXtcPage (buf : List ℕ) : Except DecodeError DecodedPage :=
  let m0 := buf.getD 0 0
  let m1 := buf.getD 1 0
  let m2 := buf.getD 2 0
  let isXtg := m0 = 0x58 ∧ m1 = 0x54 ∧ m2 = 0x47
  let isXth := m0 = 0x58 ∧ m1 = 0x54 ∧ m2 = 0x48
  if ¬(isXtg ∨ isXth) then Except.error DecodeError.badMagic
  else
    match getUint16le? buf 4, getUint16le? buf 6 with
    | some width, some height =>
      if isXth then
        let colBytes := colBytesOf height
        let planeSize := colBytes * width
        if 22 + planeSize + planeSize ≤ buf.length then
          Except.ok ⟨width, height, fun x y =>
            let p0 := fun i => if i < planeSize then buf.getD (22 + i) 0 else 0
            let p1 := fun i => if i < planeSize then buf.getD (22 + planeSize + i) 0 else 0
            let byteIdx := (width - 1 - x) * colBytes + y / 8
            let bitIdx := 7 - y % 8
            let bit0 := p0 byteIdx >>> bitIdx &&& 1
            let bit1 := p1 byteIdx >>> bitIdx &&& 1
            let val := bit0 ||| bit1 <<< 1
            if val = 0 then 255 else if val = 1 then 170 else if val = 2 then 85 else 0⟩
        else Except.error DecodeError.rangeError
      else
        match getUint32le? buf 10 with
        | some pixelDataSize =>
          if 22 + pixelDataSize ≤ buf.length then
            Except.ok ⟨width, height, fun x y =>
              let pd := fun i => if i < pixelDataSize then buf.getD (22 + i) 0 else 0
              let byteIndex := y * rowBytesOf width + x / 8
              let bitIndex := 7 - x % 8
              let bit := pd byteIndex >>> bitIndex &&& 1
              if bit ≠ 0 then 255 else 0⟩
          else Except.error DecodeError.rangeError
        | none => Except.error DecodeError.rangeError
    | _, _ => Except.error DecodeError.rangeError

/-! ### Concrete inputs used by counterexamples and witnesses -/

/-- Options with both margins at 20 percent. -/
def margin20Options : ConversionOptions :=
  { baseOptions with horizontalMargin := 20, verticalMargin := 20 }

/-- Landscape orientation with the overlap split mode. -/
def overlapOptions : ConversionOptions :=
  { baseOptions with orientation := "landscape", splitMode := "overlap" }

/-- A 1-bit conversion with gamma 2.0. -/
def oneBitGamma2Options : ConversionOptions :=
  { baseOptions with is2bit := false, gamma := 2 }

/-- The pre-mapping TOC of the spec's remapping scenario. -/
def exampleToc : List TocEntry := [⟨"A", 1, 2⟩, ⟨"B", 3, 4⟩]

/-- The expected post-mapping TOC of that scenario. -/
def exampleRemappedToc : List TocEntry := [⟨"A", 1, 3⟩, ⟨"B", 4, 7⟩]

/-- A 3 x 2 checkerboard of pure black and white (1-bit quantized). -/
def checkerImage : ImageData := ⟨3, 2, fun x y => if (x + y) % 2 = 0 then 255 else 0⟩

/-- A 3 x 2 ramp through the four 2-bit levels 0, 85, 170, 255. -/
def rampImage : ImageData := ⟨3, 2, fun x y => (x + y) % 4 * 85⟩

/-! ## Theorems -/

/-- C1: with a 100 x 1000 crop on the 480 x 800 device in landscape overlap
mode, calculateOutputPageCount predicts 3 pages, but calculateOverlapSegments
grows to 10 segments and processCanvasAsImage emits one page per segment, so
the pipeline emits 10 pages. In streamed mode the pre-computed header and
index are built from the prediction, so the written container disagrees with
its own index on such frames. -/
theorem overlap_split_emits_ten_pages_where_three_predicted :
    calculateOutputPageCount 100 1000 overlapOptions = 3 ∧
    (calculateOverlapSegments 100 1000 480 800).length = 10 ∧
    emittedPageCount 100 1000 overlapOptions (480, 800) = 10 ∧
    ∀ (w h : ℤ) (o : ConversionOptions) (dims : ℤ × ℤ), o.manhwa = false →
      o.splitMode ≠ "overlap" →
      emittedPageCount w h o dims = calculateOutputPageCount w h o := by
  refine ⟨by decide, by decide, by decide, ?_⟩
  intro w h o dims hm hs
  simp only [emittedPageCount, calculateOutputPageCount, hm]
  split_ifs <;> simp_all

/-- C2: the 2-bit quantizer of threshold (none) dithering sends every pixel of
every image to one of the four levels 0, 85, 170, 255, with strict-less-than
comparisons against 42, 127 and 212. -/
theorem applyThreshold_two_bit_levels (img : ImageData) (x y : ℕ) :
    ((applyThresholdImage true img).pixel x y = 0 ∨
     (applyThresholdImage true img).pixel x y = 85 ∨
     (applyThresholdImage true img).pixel x y = 170 ∨
     (applyThresholdImage true img).pixel x y = 255) ∧
    ((applyThresholdImage true img).pixel x y = 0 ↔ img.pixel x y < 42) ∧
    ((applyThresholdImage true img).pixel x y = 85 ↔
      42 ≤ img.pixel x y ∧ img.pixel x y < 127) ∧
    ((applyThresholdImage true img).pixel x y = 170 ↔
      127 ≤ img.pixel x y ∧ img.pixel x y < 212) ∧
    ((applyThresholdImage true img).pixel x y = 255 ↔ 212 ≤ img.pixel x y) := by
  simp only [applyThresholdImage, applyThreshold, if_true]
  split_ifs <;> simp_all <;> omega

/-- C6 counterexample: with the caller-provided createTime equal to 0 (the
value the spec prescribes for tests), writeTocHeader falls back to the clock,
so two runs at different times produce different TOC header bytes. -/
theorem writeTocHeader_zero_createTime_uses_clock :
    writeTocHeader 2 none (some 0) 1000 ≠ writeTocHeader 2 none (some 0) 2000 := by
  decide

/-- C6 amended: when the caller provides a nonzero createTime, the TOC header
bytes do not depend on the clock, so repeated encodings are byte-identical. -/
theorem writeTocHeader_deterministic_for_nonzero_createTime
    (chapterCount : ℕ) (coverPage : Option ℕ) (c now₁ now₂ : ℕ) (hc : c ≠ 0) :
    writeTocHeader chapterCount coverPage (some c) now₁ =
      writeTocHeader chapterCount coverPage (some c) now₂ := by
  simp [writeTocHeader, hc]

/-- Witness for the amended C6 theorem at createTime 123 and two clocks. -/
theorem writeTocHeader_deterministic_witness :
    writeTocHeader 7 (some 0) (some 123) 5 = writeTocHeader 7 (some 0) (some 123) 9 :=
  writeTocHeader_deterministic_for_nonzero_createTime 7 (some 0) 123 5 9 (by decide)

/-- C7 counterexample: for a 1-bit conversion with gamma 2.0, processAndEncode
hands gamma 1.0 to the filter pass and the unified filter therefore never
builds or applies the LUT; the manhwa stitcher gate is likewise closed. -/
theorem gamma_ignored_for_one_bit :
    oneBitGamma2Options.gamma ≠ 1 ∧ oneBitGamma2Options.is2bit = false ∧
    unifiedFiltersAppliesGamma (processAndEncodeGamma oneBitGamma2Options) = false ∧
    stitcherAppliesGamma oneBitGamma2Options = false := by
  refine ⟨by decide, rfl, by decide, by decide⟩

/-- C7 amended: the gamma LUT of the filter pass is applied exactly when the
conversion is 2-bit and gamma differs from 1.0; for 1-bit conversions gamma is
silently forced to 1.0 by processAndEncode and by the stitcher gate. -/
theorem gamma_applied_iff_two_bit (o : ConversionOptions) :
    (unifiedFiltersAppliesGamma (processAndEncodeGamma o) = true ↔
      o.is2bit = true ∧ o.gamma ≠ 1) ∧
    (stitcherAppliesGamma o = true ↔ o.gamma ≠ 1 ∧ o.is2bit = true) := by
  cases h2 : o.is2bit <;>
    simp [unifiedFiltersAppliesGamma, processAndEncodeGamma, stitcherAppliesGamma, h2, bne]

/-- C8: the CLI Floyd-Steinberg kernel diffuses (err * 7) >> 4, an integer
truncation: at err = 100 it adds 43 to the right neighbour where the exact
fractional term err * 7 / 16 the spec requires (and the web module part_010
computes) is 175 / 4 = 43.75. The truncation is visible in output: on the
4 x 1 row [47, 205, 141, 155] the CLI kernel produces [0, 255, 0, 255] while
the exact fractional diffusion of part_010 produces [0, 255, 255, 0] (pixel 2
lands at 127 after truncation but at 128.12 exactly, crossing the 128
threshold). -/
theorem floyd_steinberg_error_term_truncated :
    fsTermJs 100 7 = 43 ∧ ((fsTermJs 100 7 : ℤ) : ℚ) ≠ fsTermWeb 100 7 ∧
    fsTermWeb 100 7 = 175 / 4 ∧
    ditherFloydSteinbergJs [47, 205, 141, 155] 4 1 false = [0, 255, 0, 255] ∧
    ditherFloydSteinbergWeb [47, 205, 141, 155] 4 1 false = [0, 255, 255, 0] := by
  have h1 : fsTermJs 100 7 = 43 := by decide
  refine ⟨h1, ?_, ?_, by decide, by with_unfolding_all rfl⟩
  · rw [h1]; norm_num [fsTermWeb]
  · norm_num [fsTermWeb]

/-- C9 counterexample: a 3 x 3 source with both margins at 20 percent keeps
the full 3 x 3 crop (floor(3 * 20 / 100) = 0 pixels are cropped); the crop is
not the claimed 1 x 1 minimum. -/
theorem axisCrop_3x3_at20_not_minimum :
    (getAxisCropRect 3 3 margin20Options).width = 3 ∧
    ¬((getAxisCropRect 3 3 margin20Options).width = 1 ∧
      (getAxisCropRect 3 3 margin20Options).height = 1) := by
  have h : getAxisCropRect 3 3 margin20Options = ⟨0, 0, 3, 3⟩ := by
    simp only [getAxisCropRect, clampMarginPercent, margin20Options, baseOptions]
    norm_num
  rw [h]
  exact ⟨rfl, by simp⟩

/-- C9 amended: the 3 x 3 crop at 20 percent margins is the full frame, and
for every source size and every options value the returned crop width and
height are at least 1. -/
theorem axisCrop_3x3_full_and_never_zero :
    getAxisCropRect 3 3 margin20Options = ⟨0, 0, 3, 3⟩ ∧
    ∀ (w h : ℤ) (o : ConversionOptions),
      1 ≤ (getAxisCropRect w h o).width ∧ 1 ≤ (getAxisCropRect w h o).height := by
  constructor
  · simp only [getAxisCropRect, clampMarginPercent, margin20Options, baseOptions]
    norm_num
  · intro w h o
    exact ⟨le_max_left _ _, le_max_left _ _⟩

/-! ### Page mapping: helper lemmas -/

theorem foldl_addOriginalPage (calls : List (ℕ × ℕ)) : ∀ (ctx : PageMappingContext),
    (calls.foldl (fun c pc => c.addOriginalPage pc.1 pc.2) ctx).mappings
      = ctx.mappings ++ mappingsFrom ctx.currentXtcPage calls ∧
    (calls.foldl (fun c pc => c.addOriginalPage pc.1 pc.2) ctx).currentXtcPage
      = ctx.currentXtcPage + (calls.map Prod.snd).sum := by
  induction calls with
  | nil => intro ctx; simp [mappingsFrom]
  | cons pc rest ih =>
    intro ctx
    obtain ⟨h1, h2⟩ := ih (ctx.addOriginalPage pc.1 pc.2)
    rw [List.foldl_cons]
    refine ⟨?_, ?_⟩
    · rw [h1]
      simp [PageMappingContext.addOriginalPage, mappingsFrom]
    · rw [h2]
      simp [PageMappingContext.addOriginalPage]
      omega

theorem runMapping_eq (calls : List (ℕ × ℕ)) :
    (runMapping calls).mappings = mappingsFrom 1 calls ∧
    (runMapping calls).currentXtcPage = 1 + (calls.map Prod.snd).sum := by
  have := foldl_addOriginalPage calls PageMappingContext.init
  simpa [runMapping, PageMappingContext.init] using this

theorem mappingsFrom_length (calls : List (ℕ × ℕ)) : ∀ (s : ℕ),
    (mappingsFrom s calls).length = calls.length := by
  induction calls with
  | nil => intro s; rfl
  | cons pc rest ih => intro s; simp [mappingsFrom, ih]

theorem mappingsFrom_getD (calls : List (ℕ × ℕ)) : ∀ (s j : ℕ), j < calls.length →
    (mappingsFrom s calls).getD j ⟨0, 0, 0⟩ =
      ⟨(calls.getD j (0, 0)).1, s + ((calls.take j).map Prod.snd).sum,
       (calls.getD j (0, 0)).2⟩ := by
  induction calls with
  | nil => intro s j h; simp at h
  | cons pc rest ih =>
    intro s j h
    cases j with
    | zero => simp [mappingsFrom]
    | succ j =>
      have hj : j < rest.length := by simpa using h
      simp only [mappingsFrom, List.getD_cons_succ, List.take_succ_cons, List.map_cons,
        List.sum_cons]
      rw [ih (s + pc.2) j hj]
      congr 1
      omega

theorem mappingsFrom_counts (calls : List (ℕ × ℕ)) : ∀ (s : ℕ),
    (mappingsFrom s calls).map (fun m => m.xtcPageCount) = calls.map Prod.snd := by
  induction calls with
  | nil => intro s; rfl
  | cons pc rest ih => intro s; simp [mappingsFrom, ih]

/-- C10: page numbering stays contiguous under any sequence of addOriginalPage
calls: the first recorded mapping starts at page 1, each subsequent mapping
starts where the previous one ended, and getTotalXtcPages is the sum of the
recorded page counts. -/
theorem pageMapping_contiguous (calls : List (ℕ × ℕ)) :
    (0 < (runMapping calls).mappings.length →
      ((runMapping calls).mappings.getD 0 ⟨0, 0, 0⟩).xtcStartPage = 1) ∧
    (∀ i, i + 1 < (runMapping calls).mappings.length →
      ((runMapping calls).mappings.getD (i + 1) ⟨0, 0, 0⟩).xtcStartPage
        = ((runMapping calls).mappings.getD i ⟨0, 0, 0⟩).xtcStartPage
          + ((runMapping calls).mappings.getD i ⟨0, 0, 0⟩).xtcPageCount) ∧
    (runMapping calls).getTotalXtcPages
      = ((runMapping calls).mappings.map (fun m => m.xtcPageCount)).sum := by
  obtain ⟨hm, hc⟩ := runMapping_eq calls
  rw [hm, PageMappingContext.getTotalXtcPages, hc, mappingsFrom_counts]
  refine ⟨?_, ?_, by omega⟩
  · intro h
    rw [mappingsFrom_length] at h
    rw [mappingsFrom_getD calls 1 0 h]
    simp
  · intro i h
    rw [mappingsFrom_length] at h
    rw [mappingsFrom_getD calls 1 (i + 1) h, mappingsFrom_getD calls 1 i (by omega)]
    have hi : i < calls.length := by omega
    have ht : calls.take (i + 1) = calls.take i ++ [calls.getD i (0, 0)] := by
      rw [List.take_succ]
      congr 1
      rw [List.getD_eq_getElem calls (0, 0) hi]
      simp [List.getElem?_eq_getElem hi]
    simp [ht]
    omega

theorem find?_pageCalls (counts : List ℕ) : ∀ (s o p : ℕ), o + 1 ≤ p → p ≤ o + counts.length →
    (mappingsFrom s (pageCalls (o + 1) counts)).find? (fun m => m.originalPage == p)
      = some ⟨p, s + (counts.take (p - o - 1)).sum, counts.getD (p - o - 1) 0⟩ := by
  induction counts with
  | nil => intro s o p h1 h2; simp at h2; omega
  | cons c rest ih =>
    intro s o p h1 h2
    simp only [pageCalls, mappingsFrom]
    by_cases hp : o + 1 = p
    · subst hp
      rw [List.find?_cons_of_pos _ (by simp)]
      simp
    · rw [List.find?_cons_of_neg _ (by simp; omega)]
      have h3 : (o + 1) + 1 ≤ p := by omega
      have h4 : p ≤ (o + 1) + rest.length := by simp at h2; omega
      have := ih (s + c) (o + 1) p h3 h4
      rw [this]
      have h5 : p - o - 1 = (p - (o + 1) - 1) + 1 := by omega
      rw [h5]
      simp only [List.take_succ_cons, List.sum_cons, List.getD_cons_succ]
      congr 2
      omega

theorem getXtcPage_mkMappingCtx (counts : List ℕ) (p : ℕ) (h1 : 1 ≤ p)
    (h2 : p ≤ counts.length) :
    (mkMappingCtx counts).getXtcPage p = 1 + (counts.take (p - 1)).sum := by
  have hm := (runMapping_eq (pageCalls 1 counts)).1
  rw [PageMappingContext.getXtcPage, mkMappingCtx, hm]
  have h0 : pageCalls 1 counts = pageCalls (0 + 1) counts := by norm_num
  rw [h0, find?_pageCalls counts 1 0 p h1 (by omega)]
  simp

theorem length_remapToc (ctx : PageMappingContext) (toc : List TocEntry) :
    (remapToc ctx toc).length = toc.length := by
  simp [remapToc]

theorem remapToc_getD (ctx : PageMappingContext) (toc : List TocEntry) (i : ℕ)
    (h : i < toc.length) :
    (remapToc ctx toc).getD i defTocEntry =
      { title := (toc.getD i defTocEntry).title,
        startPage := ctx.getXtcPage ((toc.getD i defTocEntry).startPage),
        endPage := if i < toc.length - 1
                   then ctx.getXtcPage ((toc.getD (i + 1) defTocEntry).startPage) - 1
                   else ctx.getTotalXtcPages } := by
  have hl : i < (remapToc ctx toc).length := by rw [length_remapToc]; exact h
  rw [List.getD_eq_getElem _ _ hl, List.getD_eq_getElem _ _ h]
  simp only [remapToc, List.mapIdx_eq_ofFn, List.getElem_ofFn]
  simp [List.get_eq_getElem]

/-- C5: TOC remapping. A context built from per-frame fan-out counts maps
original page p to 1 plus the pages emitted by the frames before it; the
remapping keeps titles, replaces startPage by the mapped start, sets each
non-final endPage to the next entry's mapped start minus 1 and the final
endPage to the total emitted count; and the spec's concrete scenario with
counts (2, 1, 3, 1) yields the expected TOC and total 7. -/
theorem toc_remapping_correct :
    (∀ (counts : List ℕ) (p : ℕ), 1 ≤ p → p ≤ counts.length →
      (mkMappingCtx counts).getXtcPage p = 1 + (counts.take (p - 1)).sum) ∧
    (∀ (ctx : PageMappingContext) (toc : List TocEntry) (i : ℕ), i < toc.length →
      ((remapToc ctx toc).getD i defTocEntry).startPage
        = ctx.getXtcPage ((toc.getD i defTocEntry).startPage)) ∧
    (∀ (ctx : PageMappingContext) (toc : List TocEntry) (i : ℕ), i + 1 < toc.length →
      ((remapToc ctx toc).getD i defTocEntry).endPage
        = ctx.getXtcPage ((toc.getD (i + 1) defTocEntry).startPage) - 1) ∧
    (∀ (ctx : PageMappingContext) (toc : List TocEntry), toc ≠ [] →
      ((remapToc ctx toc).getD (toc.length - 1) defTocEntry).endPage
        = ctx.getTotalXtcPages) ∧
    remapToc (mkMappingCtx [2, 1, 3, 1]) exampleToc = exampleRemappedToc ∧
    (mkMappingCtx [2, 1, 3, 1]).getTotalXtcPages = 7 := by
  have hex1 : remapToc (mkMappingCtx [2, 1, 3, 1]) exampleToc = exampleRemappedToc := by
    decide
  have hex2 : (mkMappingCtx [2, 1, 3, 1]).getTotalXtcPages = 7 := by decide
  refine ⟨getXtcPage_mkMappingCtx, ?_, ?_, ?_, hex1, hex2⟩
  · intro ctx toc i h
    rw [remapToc_getD ctx toc i h]
  · intro ctx toc i h
    rw [remapToc_getD ctx toc i (by omega), if_pos (by omega)]
  · intro ctx toc h
    have h0 : 0 < toc.length := List.length_pos.mpr h
    rw [remapToc_getD ctx toc (toc.length - 1) (by omega), if_neg (by omega)]

/-! ### Container reader: helper lemmas -/

theorem get?_eq_some_getD (buf : List ℕ) (i : ℕ) (h : i < buf.length) :
    buf.get? i = some (buf.getD i 0) := by
  rw [List.getD_eq_getElem _ _ h, List.get?_eq_getElem?, List.getElem?_eq_getElem h]

theorem getUint16le?_isSome (buf : List ℕ) (i : ℕ) (h : i + 2 ≤ buf.length) :
    ∃ v, getUint16le? buf i = some v := by
  rw [getUint16le?, get?_eq_some_getD buf i (by omega),
    get?_eq_some_getD buf (i + 1) (by omega)]
  exact ⟨_, rfl⟩

theorem getUint32le?_isSome (buf : List ℕ) (i : ℕ) (h : i + 4 ≤ buf.length) :
    ∃ v, getUint32le? buf i = some v := by
  obtain ⟨a, ha⟩ := getUint16le?_isSome buf i (by omega)
  obtain ⟨b, hb⟩ := getUint16le?_isSome buf (i + 2) (by omega)
  rw [getUint32le?, ha, hb]
  exact ⟨_, rfl⟩

theorem getUint64le?_isSome (buf : List ℕ) (i : ℕ) (h : i + 8 ≤ buf.length) :
    ∃ v, getUint64le? buf i = some v := by
  obtain ⟨a, ha⟩ := getUint32le?_isSome buf i (by omega)
  obtain ⟨b, hb⟩ := getUint32le?_isSome buf (i + 4) (by omega)
  rw [getUint64le?, ha, hb]
  exact ⟨_, rfl⟩

theorem parseIndexEntries_ok (buf : List ℕ) : ∀ (n off : ℕ),
    off + 16 * n ≤ buf.length →
    ∃ es, parseIndexEntries buf off n = Except.ok es := by
  intro n
  induction n with
  | zero => intro off h; exact ⟨[], rfl⟩
  | succ n ih =>
    intro off h
    obtain ⟨o, ho⟩ := getUint64le?_isSome buf off (by omega)
    obtain ⟨sz, hsz⟩ := getUint32le?_isSome buf (off + 8) (by omega)
    obtain ⟨w, hw⟩ := getUint16le?_isSome buf (off + 12) (by omega)
    obtain ⟨ht, hht⟩ := getUint16le?_isSome buf (off + 14) (by omega)
    obtain ⟨es, hes⟩ := ih (off + 16) (by omega)
    refine ⟨⟨o, sz, w, ht⟩ :: es, ?_⟩
    rw [parseIndexEntries, ho, hsz, hw, hht, hes]

/-- C3 amended: for any buffer whose header parses with the metadata flag
clear and whose index table fits inside the buffer, parseXtcFile succeeds,
whatever the index entries contain: declared sizes and entry ranges are never
validated, and slices reaching outside the file are silently clamped. The only
failures are the bad-magic throw and RangeError reads. -/
theorem parseXtcFile_ok_without_range_validation (buf : List ℕ) (hdr : XtcHeader)
    (h : parseXtcHeader buf = Except.ok hdr) (hm : hdr.hasMetadata = false)
    (hn : hdr.indexOffset + 16 * hdr.pageCount ≤ buf.length) :
    ∃ r, parseXtcFile buf = Except.ok r := by
  obtain ⟨es, hes⟩ := parseIndexEntries_ok buf hdr.pageCount hdr.indexOffset hn
  refine ⟨⟨hdr, ⟨[], [], [], [], 0, 0, []⟩, es,
          es.map fun e => jsSlice buf e.offset (e.offset + e.size)⟩, ?_⟩
  simp only [parseXtcFile, h, hes]
  rw [parseMetadata, if_pos (Or.inl hm)]

/-- C3 counterexample: the 64-byte container whose single index entry points
at [1000, 1010), entirely outside [dataOffset, fileSize) = [64, 64), parses
successfully; the out-of-range page is returned as a silently clamped empty
slice instead of a MalformedContainer failure. -/
theorem parseXtcFile_accepts_out_of_range_entry :
    parseXtcFile oobEntryBuffer =
      Except.ok ⟨⟨false, 1, 1, false, 48, 48, 64, 0⟩, ⟨[], [], [], [], 0, 0, []⟩,
                 [⟨1000, 10, 480, 800⟩], [[]]⟩ ∧
    oobEntryBuffer.length = 64 :=
  ⟨rfl, by decide⟩


/-! ### Packers and decoder: helper lemmas for the round trip -/


theorem orInto_apply_self (st : ℕ → ℕ) (i m : ℕ) : orInto st i m i = st i ||| m := by
  simp [orInto]

theorem orInto_apply_ne (st : ℕ → ℕ) (i m j : ℕ) (h : i ≠ j) : orInto st i m j = st j := by
  simp [orInto, Function.update_noteq (Ne.symm h)]

theorem foldl_orInto_apply {α : Type} (cond : α → Prop) [DecidablePred cond]
    (idx mask : α → ℕ) :
    ∀ (ps : List α) (st : ℕ → ℕ) (j : ℕ),
      (ps.foldl (fun s a => if cond a then orInto s (idx a) (mask a) else s) st) j
        = st j ||| orAll ((ps.filter (fun a => decide (cond a) && (idx a == j))).map mask) := by
  intro ps
  induction ps with
  | nil => intro st j; simp [orAll]
  | cons a rest ih =>
    intro st j
    rw [List.foldl_cons]
    by_cases hc : cond a
    · by_cases hj : idx a = j
      · rw [if_pos hc, ih]
        rw [List.filter_cons_of_pos (by simp [hc, hj])]
        subst hj
        rw [List.map_cons]
        show orInto st (idx a) (mask a) (idx a) ||| _ = _
        rw [orInto_apply_self]
        have hcons : ∀ (m : ℕ) (l : List ℕ), orAll (m :: l) = m ||| orAll l :=
          fun m l => rfl
        rw [hcons, Nat.lor_assoc]
      · rw [if_pos hc, ih]
        rw [List.filter_cons_of_neg (by simp [hj])]
        rw [orInto_apply_ne st _ _ _ hj]
    · rw [if_neg hc, ih]
      rw [List.filter_cons_of_neg (by simp [hc])]

theorem testBit_orAll (l : List ℕ) (p : ℕ) :
    (orAll l).testBit p = l.any (fun m => m.testBit p) := by
  induction l with
  | nil => simp [orAll]
  | cons a rest ih =>
    simp only [orAll, List.foldr_cons, List.any_cons, Nat.testBit_lor]
    rw [← ih]
    rfl

theorem mem_rowPixelPairs (w h x y : ℕ) :
    (x, y) ∈ rowPixelPairs w h ↔ x < w ∧ y < h := by
  simp only [rowPixelPairs, List.mem_flatMap, List.mem_map, List.mem_range, Prod.mk.injEq]
  constructor
  · rintro ⟨y', hy', x', hx', rfl, rfl⟩
    exact ⟨hx', hy'⟩
  · rintro ⟨hx, hy⟩
    exact ⟨y, hy, x, hx, rfl, rfl⟩

theorem mem_colPixelPairs (w h x y : ℕ) :
    (x, y) ∈ colPixelPairs w h ↔ x < w ∧ y < h := by
  simp only [colPixelPairs, List.mem_flatMap, List.mem_map, List.mem_range, Prod.mk.injEq]
  constructor
  · rintro ⟨x', hx', y', hy', rfl, rfl⟩
    exact ⟨hx', hy'⟩
  · rintro ⟨hx, hy⟩
    exact ⟨x, hx, y, hy, rfl, rfl⟩

theorem euclid_unique {a b c d q : ℕ} (hb : b < q) (hd : d < q)
    (h : a * q + b = c * q + d) : a = c ∧ b = d := by
  have haux : ∀ a' c' b' d' : ℕ, b' < q → a' < c' → a' * q + b' = c' * q + d' → False := by
    intro a' c' b' d' hb' hlt heq
    have h2 : (a' + 1) * q ≤ c' * q := Nat.mul_le_mul_right q hlt
    rw [Nat.succ_mul] at h2
    omega
  have hac : a = c := by
    rcases Nat.lt_trichotomy a c with h1 | h1 | h1
    · exact absurd (haux a c b d hb h1 h) (by simp)
    · exact h1
    · exact absurd (haux c a d b hd h1 h.symm) (by simp)
  subst hac
  omega

theorem testBit_one_shiftLeft (n p : ℕ) : (1 <<< n).testBit p = decide (n = p) := by
  rw [Nat.shiftLeft_eq, one_mul, Nat.testBit_two_pow]

theorem getD_map_range {β : Type} (f : ℕ → β) (n i : ℕ) (h : i < n) (d : β) :
    ((List.range n).map f).getD i d = f i := by
  rw [List.getD_eq_getElem _ _ (by simpa using h)]
  simp

theorem div8_lt_rowBytes (x w : ℕ) (h : x < w) : x / 8 < rowBytesOf w := by
  rw [rowBytesOf]; omega

theorem div8_lt_colBytes (y h : ℕ) (hy : y < h) : y / 8 < colBytesOf h := by
  rw [colBytesOf]; omega

theorem xtgBytes_apply (img : ImageData) (j : ℕ) :
    xtgBytes img j = orAll (((rowPixelPairs img.width img.height).filter
      (fun xy => decide (128 ≤ img.pixel xy.1 xy.2) &&
        (xy.2 * rowBytesOf img.width + xy.1 / 8 == j))).map
      (fun xy => 1 <<< (7 - xy.1 % 8))) := by
  have h := foldl_orInto_apply (fun xy : ℕ × ℕ => 128 ≤ img.pixel xy.1 xy.2)
    (fun xy => xy.2 * rowBytesOf img.width + xy.1 / 8) (fun xy => 1 <<< (7 - xy.1 % 8))
    (rowPixelPairs img.width img.height) (fun _ => 0) j
  simpa [xtgBytes] using h

theorem xtgBytes_testBit (img : ImageData) (x y : ℕ) (hx : x < img.width)
    (hy : y < img.height) :
    (xtgBytes img (y * rowBytesOf img.width + x / 8)).testBit (7 - x % 8)
      = decide (128 ≤ img.pixel x y) := by
  rw [xtgBytes_apply, testBit_orAll]
  by_cases hpx : 128 ≤ img.pixel x y
  · rw [decide_eq_true hpx, List.any_eq_true]
    refine ⟨1 <<< (7 - x % 8), List.mem_map.mpr ⟨(x, y), List.mem_filter.mpr
      ⟨(mem_rowPixelPairs _ _ _ _).mpr ⟨hx, hy⟩, by simp [hpx]⟩, rfl⟩, ?_⟩
    rw [testBit_one_shiftLeft]
    simp
  · rw [decide_eq_false hpx, List.any_eq_false]
    rintro m hm
    obtain ⟨⟨x', y'⟩, hmem, rfl⟩ := List.mem_map.mp hm
    obtain ⟨hp, hcond⟩ := List.mem_filter.mp hmem
    obtain ⟨hx', hy'⟩ := (mem_rowPixelPairs _ _ _ _).mp hp
    simp only [Bool.and_eq_true, decide_eq_true_eq, beq_iff_eq] at hcond
    obtain ⟨hpix, hidx⟩ := hcond
    have h1 : x' / 8 < rowBytesOf img.width := div8_lt_rowBytes x' img.width hx'
    have h2 : x / 8 < rowBytesOf img.width := div8_lt_rowBytes x img.width hx
    obtain ⟨hyy, hxx8⟩ := euclid_unique h1 h2 hidx
    rw [testBit_one_shiftLeft]
    simp only [decide_eq_false_iff_not]
    intro habs
    have habs2 : 7 - x' % 8 = 7 - x % 8 := of_decide_eq_true habs
    have hm8 : x' % 8 = x % 8 := by omega
    have hx'x : x' = x := by omega
    rw [hx'x, hyy] at hpix
    exact hpx hpix


theorem xtg_length (img : ImageData) :
    (imageDataToXtg img).length = 22 + (xtgPixelList img).length := by
  simp [imageDataToXtg, u16le, u32le, xtgDigest]
  omega

theorem xtgPixelList_length (img : ImageData) :
    (xtgPixelList img).length = rowBytesOf img.width * img.height := by
  simp [xtgPixelList]

theorem xtg_payload_getD (img : ImageData) (i : ℕ) :
    (imageDataToXtg img).getD (22 + i) 0 = (xtgPixelList img).getD i 0 := by
  have hsplit : imageDataToXtg img
      = ([0x58, 0x54, 0x47, 0x00] ++ u16le img.width ++ u16le img.height ++ [0, 0] ++
         u32le (xtgPixelList img).length ++ xtgDigest (xtgPixelList img)) ++ xtgPixelList img := by
    simp [imageDataToXtg]
  rw [hsplit, List.getD_append_right]
  · congr 1
    simp [u16le, u32le, xtgDigest]
  · simp [u16le, u32le, xtgDigest]

theorem shiftRight_and_one (v b : ℕ) : v >>> b &&& 1 = if v.testBit b then 1 else 0 := by
  rw [Nat.and_one_is_mod, Nat.testBit_to_div_mod, Nat.shiftRight_eq_div_pow]
  rcases Nat.mod_two_eq_zero_or_one (v / 2 ^ b) with h | h <;> simp [h]

theorem byteIndex_lt (w h x y : ℕ) (hx : x < w) (hy : y < h) :
    y * rowBytesOf w + x / 8 < rowBytesOf w * h := by
  have h1 := div8_lt_rowBytes x w hx
  have h2 : (y + 1) * rowBytesOf w ≤ h * rowBytesOf w :=
    Nat.mul_le_mul_right _ (by omega)
  rw [Nat.succ_mul] at h2
  rw [Nat.mul_comm (rowBytesOf w) h]
  omega

theorem decodeXtg_eval (img : ImageData) (hw : img.width < 65536) (hh : img.height < 65536) :
    ∃ d, decodeXtcPage (imageDataToXtg img) = Except.ok d ∧ d.width = img.width ∧
      d.height = img.height ∧ ∀ x, x < img.width → ∀ y, y < img.height →
        d.pixel x y = if 128 ≤ img.pixel x y then 255 else 0 := by
  have h16w : getUint16le? (imageDataToXtg img) 4 = some img.width := by
    have h : getUint16le? (imageDataToXtg img) 4
        = some (img.width % 256 + 256 * (img.width / 256 % 256)) := rfl
    rw [h]
    congr 1
    omega
  have h16h : getUint16le? (imageDataToXtg img) 6 = some img.height := by
    have h : getUint16le? (imageDataToXtg img) 6
        = some (img.height % 256 + 256 * (img.height / 256 % 256)) := rfl
    rw [h]
    congr 1
    omega
  have hL32 : (xtgPixelList img).length < 4294967296 := by
    rw [xtgPixelList_length]
    have h1 : rowBytesOf img.width ≤ 8192 := by rw [rowBytesOf]; omega
    have h2 : img.height ≤ 65535 := by omega
    calc rowBytesOf img.width * img.height ≤ 8192 * 65535 := Nat.mul_le_mul h1 h2
      _ < 4294967296 := by norm_num
  have h32 : getUint32le? (imageDataToXtg img) 10 = some (xtgPixelList img).length := by
    have h : getUint32le? (imageDataToXtg img) 10
        = some ((xtgPixelList img).length % 256
            + 256 * ((xtgPixelList img).length / 256 % 256)
            + 65536 * ((xtgPixelList img).length / 65536 % 256
              + 256 * ((xtgPixelList img).length / 16777216 % 256))) := rfl
    rw [h]
    congr 1
    omega
  have hg0 : (imageDataToXtg img).getD 0 0 = 88 := rfl
  have hg1 : (imageDataToXtg img).getD 1 0 = 84 := rfl
  have hg2 : (imageDataToXtg img).getD 2 0 = 71 := rfl
  simp only [decodeXtcPage, hg0, hg1, hg2, h16w, h16h, h32]
  rw [if_neg (by norm_num)]
  rw [if_neg (by norm_num)]
  rw [if_pos (by rw [xtg_length])]
  refine ⟨_, rfl, rfl, rfl, ?_⟩
  intro x hx y hy
  have hbi : y * rowBytesOf img.width + x / 8 < (xtgPixelList img).length := by
    rw [xtgPixelList_length]
    exact byteIndex_lt img.width img.height x y hx hy
  dsimp only
  rw [if_pos hbi, xtg_payload_getD]
  have hone : (xtgPixelList img).getD (y * rowBytesOf img.width + x / 8) 0
      = xtgBytes img (y * rowBytesOf img.width + x / 8) := by
    rw [xtgPixelList]
    exact getD_map_range _ _ _ (by rw [← xtgPixelList_length]; exact hbi) 0
  rw [hone, shiftRight_and_one, xtgBytes_testBit img x y hx hy]
  by_cases hpx : 128 ≤ img.pixel x y
  · simp [hpx]
  · simp [hpx]

theorem xthPlaneBytes_apply (img : ImageData) (plane j : ℕ) :
    xthPlaneBytes img plane j = orAll (((colPixelPairs img.width img.height).filter
      (fun xy => decide ((xthVal (img.pixel xy.1 xy.2)).testBit plane = true) &&
        ((img.width - 1 - xy.1) * colBytesOf img.height + xy.2 / 8 == j))).map
      (fun xy => 1 <<< (7 - xy.2 % 8))) := by
  have h := foldl_orInto_apply
    (fun xy : ℕ × ℕ => (xthVal (img.pixel xy.1 xy.2)).testBit plane = true)
    (fun xy => (img.width - 1 - xy.1) * colBytesOf img.height + xy.2 / 8)
    (fun xy => 1 <<< (7 - xy.2 % 8))
    (colPixelPairs img.width img.height) (fun _ => 0) j
  simpa [xthPlaneBytes] using h

theorem xthPlaneBytes_testBit (img : ImageData) (plane x y : ℕ) (hx : x < img.width)
    (hy : y < img.height) :
    (xthPlaneBytes img plane
        ((img.width - 1 - x) * colBytesOf img.height + y / 8)).testBit (7 - y % 8)
      = (xthVal (img.pixel x y)).testBit plane := by
  rw [xthPlaneBytes_apply, testBit_orAll]
  by_cases hpx : (xthVal (img.pixel x y)).testBit plane = true
  · rw [hpx, List.any_eq_true]
    refine ⟨1 <<< (7 - y % 8), List.mem_map.mpr ⟨(x, y), List.mem_filter.mpr
      ⟨(mem_colPixelPairs _ _ _ _).mpr ⟨hx, hy⟩, by simp [hpx]⟩, rfl⟩, ?_⟩
    rw [testBit_one_shiftLeft]
    simp
  · rw [Bool.not_eq_true] at hpx
    rw [hpx, List.any_eq_false]
    rintro m hm
    obtain ⟨⟨x', y'⟩, hmem, rfl⟩ := List.mem_map.mp hm
    obtain ⟨hp, hcond⟩ := List.mem_filter.mp hmem
    obtain ⟨hx', hy'⟩ := (mem_colPixelPairs _ _ _ _).mp hp
    simp only [Bool.and_eq_true, decide_eq_true_eq, beq_iff_eq] at hcond
    obtain ⟨hpix, hidx⟩ := hcond
    have h1 : y' / 8 < colBytesOf img.height := div8_lt_colBytes y' img.height hy'
    have h2 : y / 8 < colBytesOf img.height := div8_lt_colBytes y img.height hy
    obtain ⟨hww, hyy8⟩ := euclid_unique h1 h2 hidx
    rw [testBit_one_shiftLeft]
    simp only [decide_eq_false_iff_not]
    intro habs
    have habs2 : 7 - y' % 8 = 7 - y % 8 := of_decide_eq_true habs
    have hm8 : y' % 8 = y % 8 := by omega
    have hy'y : y' = y := by omega
    have hx'x : x' = x := by omega
    rw [hx'x, hy'y] at hpix
    rw [hpix] at hpx
    simp at hpx

theorem xthPlaneList_length (img : ImageData) (plane : ℕ) :
    (xthPlaneList img plane).length = colBytesOf img.height * img.width := by
  simp [xthPlaneList]

theorem xth_length (img : ImageData) :
    (imageDataToXth img).length
      = 22 + colBytesOf img.height * img.width + colBytesOf img.height * img.width := by
  simp [imageDataToXth, u16le, u32le, xthDigest, xthPlaneList_length]
  omega

theorem colByteIndex_lt (w h x y : ℕ) (hx : x < w) (hy : y < h) :
    (w - 1 - x) * colBytesOf h + y / 8 < colBytesOf h * w := by
  have h1 := div8_lt_colBytes y h hy
  have h2 : (w - 1 - x) + 1 ≤ w := by omega
  have h3 : ((w - 1 - x) + 1) * colBytesOf h ≤ w * colBytesOf h :=
    Nat.mul_le_mul_right _ h2
  rw [Nat.succ_mul] at h3
  rw [Nat.mul_comm (colBytesOf h) w]
  omega

theorem xth_payload_p0 (img : ImageData) (i : ℕ)
    (hi : i < colBytesOf img.height * img.width) :
    (imageDataToXth img).getD (22 + i) 0 = xthPlaneBytes img 0 i := by
  have hsplit : imageDataToXth img
      = ([0x58, 0x54, 0x48, 0x00] ++ u16le img.width ++ u16le img.height ++ [0, 0] ++
         u32le ((xthPlaneList img 0).length + (xthPlaneList img 1).length) ++
         xthDigest (xthPlaneList img 0) (xthPlaneList img 1))
        ++ (xthPlaneList img 0 ++ xthPlaneList img 1) := by
    simp [imageDataToXth]
  rw [hsplit, List.getD_append_right]
  · have hpre : ([0x58, 0x54, 0x48, 0x00] ++ u16le img.width ++ u16le img.height ++ [0, 0] ++
        u32le ((xthPlaneList img 0).length + (xthPlaneList img 1).length) ++
        xthDigest (xthPlaneList img 0) (xthPlaneList img 1)).length = 22 := by
      simp [u16le, u32le, xthDigest]
    rw [hpre]
    have : 22 + i - 22 = i := by omega
    rw [this, List.getD_append _ _ _ _ (by rw [xthPlaneList_length]; exact hi)]
    rw [xthPlaneList]
    exact getD_map_range _ _ _ hi 0
  · simp [u16le, u32le, xthDigest]

theorem xth_payload_p1 (img : ImageData) (i : ℕ)
    (hi : i < colBytesOf img.height * img.width) :
    (imageDataToXth img).getD (22 + colBytesOf img.height * img.width + i) 0
      = xthPlaneBytes img 1 i := by
  have hsplit : imageDataToXth img
      = ([0x58, 0x54, 0x48, 0x00] ++ u16le img.width ++ u16le img.height ++ [0, 0] ++
         u32le ((xthPlaneList img 0).length + (xthPlaneList img 1).length) ++
         xthDigest (xthPlaneList img 0) (xthPlaneList img 1) ++ xthPlaneList img 0)
        ++ xthPlaneList img 1 := by
    simp [imageDataToXth]
  have hpre : ([0x58, 0x54, 0x48, 0x00] ++ u16le img.width ++ u16le img.height ++ [0, 0] ++
      u32le ((xthPlaneList img 0).length + (xthPlaneList img 1).length) ++
      xthDigest (xthPlaneList img 0) (xthPlaneList img 1) ++ xthPlaneList img 0).length
        = 22 + colBytesOf img.height * img.width := by
    simp [u16le, u32le, xthDigest, xthPlaneList_length]
    omega
  rw [hsplit, List.getD_append_right _ _ _ _ (by rw [hpre]; omega), hpre]
  have : 22 + colBytesOf img.height * img.width + i
      - (22 + colBytesOf img.height * img.width) = i := by omega
  rw [this, xthPlaneList]
  exact getD_map_range _ _ _ hi 0

theorem decodeXth_eval (img : ImageData) (hw : img.width < 65536) (hh : img.height < 65536) :
    ∃ d, decodeXtcPage (imageDataToXth img) = Except.ok d ∧ d.width = img.width ∧
      d.height = img.height ∧ ∀ x, x < img.width → ∀ y, y < img.height →
        d.pixel x y = (if xthVal (img.pixel x y) = 0 then 255
          else if xthVal (img.pixel x y) = 1 then 170
          else if xthVal (img.pixel x y) = 2 then 85 else 0) := by
  have h16w : getUint16le? (imageDataToXth img) 4 = some img.width := by
    have h : getUint16le? (imageDataToXth img) 4
        = some (img.width % 256 + 256 * (img.width / 256 % 256)) := rfl
    rw [h]
    congr 1
    omega
  have h16h : getUint16le? (imageDataToXth img) 6 = some img.height := by
    have h : getUint16le? (imageDataToXth img) 6
        = some (img.height % 256 + 256 * (img.height / 256 % 256)) := rfl
    rw [h]
    congr 1
    omega
  have hg0 : (imageDataToXth img).getD 0 0 = 88 := rfl
  have hg1 : (imageDataToXth img).getD 1 0 = 84 := rfl
  have hg2 : (imageDataToXth img).getD 2 0 = 72 := rfl
  simp only [decodeXtcPage, hg0, hg1, hg2, h16w, h16h]
  rw [if_neg (by norm_num)]
  rw [if_pos (by norm_num)]
  rw [if_pos (by rw [xth_length])]
  refine ⟨_, rfl, rfl, rfl, ?_⟩
  intro x hx y hy
  have hbi : (img.width - 1 - x) * colBytesOf img.height + y / 8
      < colBytesOf img.height * img.width :=
    colByteIndex_lt img.width img.height x y hx hy
  dsimp only
  rw [if_pos hbi, if_pos hbi, xth_payload_p0 img _ hbi, xth_payload_p1 img _ hbi]
  rw [shiftRight_and_one, shiftRight_and_one,
    xthPlaneBytes_testBit img 0 x y hx hy, xthPlaneBytes_testBit img 1 x y hx hy]
  have hv4 : xthVal (img.pixel x y) < 4 := by rw [xthVal]; split_ifs <;> omega
  rcases (by omega : xthVal (img.pixel x y) = 0 ∨ xthVal (img.pixel x y) = 1 ∨
      xthVal (img.pixel x y) = 2 ∨ xthVal (img.pixel x y) = 3) with h | h | h | h <;>
    rw [h] <;> decide

/-- C4: pack-parse-unpack round trip. For any image whose dimensions fit the
chunk header's u16 fields: if every pixel is 1-bit quantized (gray 0 or 255),
packing with imageDataToXtg and decoding the chunk (header included) with
decodeXtcPageToCanvas returns the identical image; if every pixel is 2-bit
quantized (gray in 0, 85, 170, 255), the same holds through imageDataToXth. -/
theorem pack_decode_roundtrip (img : ImageData) (hw : img.width < 65536)
    (hh : img.height < 65536) :
    ((∀ x, x < img.width → ∀ y, y < img.height →
        img.pixel x y = 0 ∨ img.pixel x y = 255) →
      ∃ d, decodeXtcPage (imageDataToXtg img) = Except.ok d ∧ d.width = img.width ∧
        d.height = img.height ∧
        ∀ x, x < img.width → ∀ y, y < img.height → d.pixel x y = img.pixel x y) ∧
    ((∀ x, x < img.width → ∀ y, y < img.height →
        img.pixel x y = 0 ∨ img.pixel x y = 85 ∨ img.pixel x y = 170 ∨
          img.pixel x y = 255) →
      ∃ d, decodeXtcPage (imageDataToXth img) = Except.ok d ∧ d.width = img.width ∧
        d.height = img.height ∧
        ∀ x, x < img.width → ∀ y, y < img.height → d.pixel x y = img.pixel x y) := by
  constructor
  · intro hq
    obtain ⟨d, hd, hdw, hdh, hpix⟩ := decodeXtg_eval img hw hh
    refine ⟨d, hd, hdw, hdh, fun x hx y hy => ?_⟩
    rw [hpix x hx y hy]
    rcases hq x hx y hy with h | h <;> rw [h] <;> norm_num
  · intro hq
    obtain ⟨d, hd, hdw, hdh, hpix⟩ := decodeXth_eval img hw hh
    refine ⟨d, hd, hdw, hdh, fun x hx y hy => ?_⟩
    rw [hpix x hx y hy]
    rcases hq x hx y hy with h | h | h | h <;> rw [h] <;> decide

/-- Witness for C4 at the concrete 3 x 2 checkerboard image, whose pixels are
both 1-bit and 2-bit quantized. -/
theorem pack_decode_roundtrip_witness :
    ((∀ x, x < checkerImage.width → ∀ y, y < checkerImage.height →
        checkerImage.pixel x y = 0 ∨ checkerImage.pixel x y = 255) →
      ∃ d, decodeXtcPage (imageDataToXtg checkerImage) = Except.ok d ∧
        d.width = checkerImage.width ∧ d.height = checkerImage.height ∧
        ∀ x, x < checkerImage.width → ∀ y, y < checkerImage.height →
          d.pixel x y = checkerImage.pixel x y) ∧
    ((∀ x, x < checkerImage.width → ∀ y, y < checkerImage.height →
        checkerImage.pixel x y = 0 ∨ checkerImage.pixel x y = 85 ∨
          checkerImage.pixel x y = 170 ∨ checkerImage.pixel x y = 255) →
      ∃ d, decodeXtcPage (imageDataToXth checkerImage) = Except.ok d ∧
        d.width = checkerImage.width ∧ d.height = checkerImage.height ∧
        ∀ x, x < checkerImage.width → ∀ y, y < checkerImage.height →
          d.pixel x y = checkerImage.pixel x y) :=
  pack_decode_roundtrip checkerImage (by decide) (by decide)

/-- Witness for the amended C3 theorem at the concrete 64-byte container. -/
theorem parseXtcFile_no_validation_witness :
    ∃ r, parseXtcFile oobEntryBuffer = Except.ok r :=
  parseXtcFile_ok_without_range_validation oobEntryBuffer
    ⟨false, 1, 1, false, 48, 48, 64, 0⟩ rfl rfl (by decide)

end Xtc
